import Mathlib

/-
Verification of persway (src/main.rs): a shallow embedding of the
event-driven core — the autolayout engine, the workspace naming engine,
the event loop with its focus tracker and hook dispatch, and the signal
handler — together with theorems about the specified properties.

Strings are modelled as lists of characters (`Str`) so that the string
manipulations of the source (`split(':')`, `trim_start_matches('-')`,
`trim_end_matches('-')`, `to_lowercase`) are directly computable and
provable.  Machine integers (container ids, rectangle sizes) are
modelled as `Int`; the floating `percent` field is modelled as `ℚ`
(only its order against 1 matters).
-/

namespace Persway

/-- Strings of the source, modelled as lists of characters. -/
abbrev Str := List Char

/-- Node types of the window tree (swayipc `NodeType`). -/
inductive NodeType where
  | root
  | output
  | workspace
  | con
  | floatingCon
  | dockarea
  | unknown
deriving DecidableEq, Repr

/-- Layout modes of a tree node (swayipc `NodeLayout`). -/
inductive NodeLayout where
  | splitH
  | splitV
  | stacked
  | tabbed
  | output
  | dockarea
  | nolayout
  | unknown
deriving DecidableEq, Repr

/-- A node's rectangle geometry. -/
structure Rect where
  width : Int
  height : Int
deriving DecidableEq, Repr

/-- A node of the window tree: id, type, layout, fullscreen `percent`
indicator, geometry, focus flag and direct children. -/
inductive Node where
  | mk (id : Int) (node_type : NodeType) (layout : NodeLayout)
      (percent : Option ℚ) (rect : Rect) (focused : Bool)
      (nodes : List Node)

def Node.id : Node → Int
  | .mk i _ _ _ _ _ _ => i

def Node.node_type : Node → NodeType
  | .mk _ t _ _ _ _ _ => t

def Node.layout : Node → NodeLayout
  | .mk _ _ l _ _ _ _ => l

def Node.percent : Node → Option ℚ
  | .mk _ _ _ p _ _ _ => p

def Node.rect : Node → Rect
  | .mk _ _ _ _ r _ _ => r

def Node.focused : Node → Bool
  | .mk _ _ _ _ _ f _ => f

def Node.nodes : Node → List Node
  | .mk _ _ _ _ _ _ ns => ns

/-- Modelled from the spec: the `Tree` snapshot (swayipc `get_tree`,
external to this repository) exposes a focus path from the root to the
currently focused leaf; locating a node (`find_focused_as_ref`)
searches for the first node along this path satisfying a predicate. -/
structure Tree where
  focusPath : List Node

/-- Modelled from the spec: `find_focused_as_ref` returns the first
node along the focus path satisfying the predicate. -/
def Tree.find_focused (t : Tree) (p : Node → Bool) : Option Node :=
  t.focusPath.find? p

/-- Kinds of window change events (swayipc `WindowChange`). -/
inductive WindowChange where
  | new
  | close
  | focus
  | title
  | fullscreenMode
  | move
  | floating
  | urgent
  | mark
  | unknown
deriving DecidableEq, Repr

/-- Legacy window properties; `wclass` mirrors the source's `class`
field (a Lean keyword). -/
structure WindowProperties where
  wclass : Option Str
deriving DecidableEq, Repr

/-- The container snapshot carried by a window event. -/
structure Container where
  id : Int
  app_id : Option Str
  window_properties : Option WindowProperties
deriving DecidableEq, Repr

/-- A window event: change kind plus container snapshot. -/
structure WindowEvent where
  change : WindowChange
  container : Container
deriving DecidableEq, Repr

/-- A workspace as returned by `get_workspaces`: name, focus flag,
and the list of focused-descendant ids. -/
structure Workspace where
  name : Str
  focused : Bool
  focus : List Int
deriving DecidableEq, Repr

/-- The per-iteration world: the outcome of `run_command` for each
command string, and the outcomes of the `get_tree` / `get_workspaces`
queries made during this iteration. -/
structure Env where
  runCommand : Str → Except String Unit
  tree : Except String Tree
  workspaces : Except String (List Workspace)

/-- The observable outcome of a piece of the program: the commands it
attempted to send, in order, and its result (`.error` models an early
return through `?` / `Err`). -/
structure Out (α : Type) where
  cmds : List Str
  res : Except String α
deriving Repr

/-- Sequencing: run `a`; if it fails the error propagates (commands
already sent are kept), otherwise continue with `b`. -/
def Out.andThen (a : Out Unit) (b : Out α) : Out α :=
  match a.res with
  | .error e => ⟨a.cmds, .error e⟩
  | .ok _ => ⟨a.cmds ++ b.cmds, b.res⟩

/-- From `autolayout` in src/main.rs: fetch the tree, locate the
focused node and its parent, and unless the focused node is floating
or fullscreen (`percent > 1.0`) or the parent is stacked or tabbed,
send one split command whose direction depends on the aspect ratio. -/
def autolayout (env : Env) : Out Unit :=
  match env.tree with
  | .error e => ⟨[], .error e⟩
  | .ok tree =>
    match tree.find_focused (fun n => n.focused) with
    | none => ⟨[], .error "No focused node"⟩
    | some focused =>
      match tree.find_focused (fun n => n.nodes.any (fun m => m.focused)) with
      | none => ⟨[], .error "No parent"⟩
      | some parent =>
        let is_floating := focused.node_type == NodeType.floatingCon
        let is_full_screen := decide (Option.getD focused.percent 1 > (1 : ℚ))
        let is_stacked := parent.layout == NodeLayout.stacked
        let is_tabbed := parent.layout == NodeLayout.tabbed
        if !is_floating && !is_full_screen && !is_stacked && !is_tabbed then
          let cmd := if focused.rect.height > focused.rect.width
            then "split v".toList else "split h".toList
          ⟨[cmd], env.runCommand cmd⟩
        else ⟨[], .ok ()⟩

/-- From `get_focused_workspace` in src/main.rs. -/
def get_focused_workspace (env : Env) : Except String Workspace :=
  match env.workspaces with
  | .error e => .error e
  | .ok ws =>
    match ws.find? (fun w => w.focused) with
    | some w => .ok w
    | none => .error "No focused workspace"

/-- Splitting a character list at every occurrence of `sep`, mirroring
Rust's `str::split(sep)`: always yields at least one (possibly empty)
piece. -/
def splitChar (sep : Char) : Str → List Str
  | [] => [[]]
  | c :: rest =>
    if c = sep then [] :: splitChar sep rest
    else
      match splitChar sep rest with
      | [] => [[c]]
      | h :: t => (c :: h) :: t

/-- `ws_num` of src/main.rs: `name.split(':').next().unwrap_or(name)` —
the portion of the name left of the first `:` (the whole name when no
`:` occurs). -/
def wsNum (name : Str) : Str :=
  (splitChar ':' name).headD name

/-- Rust `str::trim_start_matches(c)` for a single character. -/
def trim_start_matches (c : Char) (s : Str) : Str :=
  s.dropWhile (fun a => a == c)

/-- Rust `str::trim_end_matches(c)` for a single character. -/
def trim_end_matches (c : Char) (s : Str) : Str :=
  (s.reverse.dropWhile (fun a => a == c)).reverse

/-- Rust `str::to_lowercase`, modelled characterwise by
`Char.toLower`. -/
def to_lowercase (s : Str) : Str :=
  s.map Char.toLower

/-- The normalization applied to the application identity in
`rename_workspace`:
`app_name.trim_start_matches('-').trim_end_matches('-').to_lowercase()`. -/
def normalizeApp (s : Str) : Str :=
  to_lowercase (trim_end_matches '-' (trim_start_matches '-' s))

/-- The identity chosen by `rename_workspace`:
`app_id.map_or_else(|| window_properties.and_then(|p| p.class), Some)` —
the event's `app_id` when present, otherwise the legacy window class. -/
def appIdentity (event : WindowEvent) : Option Str :=
  match event.container.app_id with
  | some a => some a
  | none => event.container.window_properties.bind (fun p => p.wclass)

/-- The `newname` computed by `rename_workspace` in the non-empty
focus branch: `"{ws_num}: {normalized identity}"`. -/
def renameNewName (name app : Str) : Str :=
  wsNum name ++ ": ".toList ++ normalizeApp app

/-- From `rename_workspace` in src/main.rs: fetch the focused
workspace, extract `ws_num`; with an empty focus list rename to
`ws_num` alone, otherwise rename to `"{ws_num}: {identity}"` when an
identity is available, and do nothing when none is. -/
def rename_workspace (event : WindowEvent) (env : Env) : Out Unit :=
  match get_focused_workspace env with
  | .error e => ⟨[], .error e⟩
  | .ok current_ws =>
    let ws_num := wsNum current_ws.name
    if current_ws.focus.isEmpty then
      let cmd := "rename workspace to ".toList ++ ws_num
      ⟨[cmd], env.runCommand cmd⟩
    else
      match appIdentity event with
      | some app_name =>
        let newname := renameNewName current_ws.name app_name
        let cmd := "rename workspace to ".toList ++ newname
        ⟨[cmd], env.runCommand cmd⟩
      | none => ⟨[], .ok ()⟩

/-- The startup configuration (command-line flags of `Cli`). -/
structure Config where
  autolayout : Bool
  workspace_renaming : Bool
  on_window_focus : Option Str
  on_window_focus_leave : Option Str
  on_exit : Option Str

/-- The focus-leave hook command: `format!("[con_id={id}] {cmd}")`. -/
def leaveHookCmd (id : Int) (cmd : Str) : Str :=
  "[con_id=".toList ++ (toString id).toList ++ "] ".toList ++ cmd

/-- The leave-hook dispatch of the event loop: when the hook is
configured and the tracker holds a previous id, send the scoped
command; its failure propagates (`?`). -/
def leaveHook (cfg : Config) (env : Env) (prev : Option Int) : Out Unit :=
  match cfg.on_window_focus_leave with
  | some t =>
    match prev with
    | some id =>
      let cmd := leaveHookCmd id t
      ⟨[cmd], env.runCommand cmd⟩
    | none => ⟨[], .ok ()⟩
  | none => ⟨[], .ok ()⟩

/-- The focus-enter hook dispatch: send the template verbatim when
configured; its failure propagates (`?`). -/
def enterHook (cfg : Config) (env : Env) : Out Unit :=
  match cfg.on_window_focus with
  | some t => ⟨[t], env.runCommand t⟩
  | none => ⟨[], .ok ()⟩

/-- `if let Err(e) = ... { println!(...) }`: the result is discarded
(logged), the error never propagates. -/
def catchLog (a : Out Unit) : Out Unit :=
  ⟨a.cmds, .ok ()⟩

/-- Run an action only when a configuration flag is set. -/
def runIf (b : Bool) (a : Out Unit) : Out Unit :=
  if b then a else ⟨[], .ok ()⟩

/-- One iteration of the event loop of `main` in src/main.rs, for a
window event: dispatch on the change kind, running the hooks (failures
propagate), the naming and autolayout engines (failures caught and
logged), and produce the new focus-tracker value. -/
def handleWindowEvent (cfg : Config) (env : Env) (prev : Option Int)
    (event : WindowEvent) : Out (Option Int) :=
  match event.change with
  | .focus =>
    Out.andThen (leaveHook cfg env prev)
      (Out.andThen (enterHook cfg env)
        (Out.andThen (runIf cfg.workspace_renaming (catchLog (rename_workspace event env)))
          (Out.andThen (runIf cfg.autolayout (catchLog (autolayout env)))
            ⟨[], .ok (some event.container.id)⟩)))
  | .close =>
    Out.andThen (leaveHook cfg env prev)
      (Out.andThen (runIf cfg.workspace_renaming (catchLog (rename_workspace event env)))
        ⟨[], .ok none⟩)
  | _ => ⟨[], .ok prev⟩

/-- The pure effect of one event on the focus tracker `prev`. -/
def trackerStep (prev : Option Int) (event : WindowEvent) : Option Int :=
  match event.change with
  | .focus => some event.container.id
  | .close => none
  | _ => prev

/-- The event loop of `main`: each stream item is either a
connection-level error (which `event?` propagates, ending the loop) or
a window event handled with the world `Env` of that iteration; the
loop ends normally when the stream is exhausted. -/
def runLoop (cfg : Config) :
    Option Int → List (Except String WindowEvent × Env) → Out (Option Int)
  | prev, [] => ⟨[], .ok prev⟩
  | prev, (item, env) :: rest =>
    match item with
    | .error e => ⟨[], .error e⟩
    | .ok event =>
      match handleWindowEvent cfg env prev event with
      | ⟨cmds, .error e⟩ => ⟨cmds, .error e⟩
      | ⟨cmds, .ok p⟩ =>
        let r := runLoop cfg p rest
        ⟨cmds ++ r.cmds, r.res⟩

/-- The result of `main`'s event loop: on stream exhaustion the loop
falls through to `Ok(())`; an error propagates. -/
def mainResult (cfg : Config)
    (items : List (Except String WindowEvent × Env)) : Except String Unit :=
  match (runLoop cfg none items).res with
  | .ok _ => .ok ()
  | .error e => .error e

/-- The process exit status determined by `main`'s result: `Ok` exits
zero, `Err` exits non-zero. -/
def exitCode (cfg : Config)
    (items : List (Except String WindowEvent × Env)) : Nat :=
  match mainResult cfg items with
  | .ok _ => 0
  | .error _ => 1

/-- The signals the process registers for. -/
inductive Signal where
  | sighup
  | sigint
  | sigquit
  | sigterm
  | other
deriving DecidableEq, Repr

/-- Outcome of the signal task: commands sent over its dedicated
connection, and `some code` when the process exits (the `_` arm of the
source is `unreachable!`, modelled as no exit). -/
structure SignalOutcome where
  cmds : List Str
  exit : Option Nat
deriving DecidableEq, Repr

/-- From `handle_signals` in src/main.rs: on the first received
termination signal, open a command connection, send the `on_exit` hook
when configured, and exit with status 0; any other signal is
unreachable. -/
def handle_signals (on_exit : Option Str) : List Signal → SignalOutcome
  | [] => ⟨[], none⟩
  | sig :: _ =>
    match sig with
    | .other => ⟨[], none⟩
    | _ =>
      ⟨(match on_exit with | some c => [c] | none => []), some 0⟩

def okCmd : Str → Except String Unit := fun _ => .ok ()

def evFirefox : WindowEvent :=
  ⟨WindowChange.focus, ⟨7, some "Firefox".toList, none⟩⟩

def wsThree : Workspace := ⟨"3".toList, true, [7]⟩

def wsThreeFirefox : Workspace := ⟨"3: firefox".toList, true, [7]⟩

def wsThreeFirefoxEmpty : Workspace := ⟨"3: firefox".toList, true, []⟩

def envWs (w : Workspace) : Env := ⟨okCmd, .error "no tree", .ok [w]⟩

def evClose : WindowEvent := ⟨WindowChange.close, ⟨7, none, none⟩⟩

/-- The stream made of successfully delivered window events. -/
def okStream (evs : List (WindowEvent × Env)) :
    List (Except String WindowEvent × Env) :=
  evs.map (fun x => ((Except.ok x.1 : Except String WindowEvent), x.2))

/-- The tracker value determined purely by the event sequence. -/
def trackerFold (evs : List (WindowEvent × Env)) (prev : Option Int) : Option Int :=
  evs.foldl (fun q x => trackerStep q x.1) prev

def cfgLeave : Config :=
  ⟨false, false, none, some "mark --add _prev".toList, none⟩

def cfgEngines : Config := ⟨true, true, none, none, none⟩

def envBroken : Env :=
  ⟨okCmd, .error "tree query failed", .error "workspace query failed"⟩

def cfgPlain : Config := ⟨false, false, none, none, none⟩

def envSendFail : Env :=
  ⟨fun _ => .error "write: broken pipe", .error "no tree", .error "no workspaces"⟩

def nodeFocusedSample : Node :=
  Node.mk 2 NodeType.con NodeLayout.splitH (some (1 / 2)) ⟨800, 1000⟩ true []

def nodeRootSample : Node :=
  Node.mk 1 NodeType.root NodeLayout.splitH none ⟨1920, 1080⟩ false [nodeFocusedSample]

def treeSample : Tree := ⟨[nodeRootSample, nodeFocusedSample]⟩

def envTreeSample : Env := ⟨okCmd, .ok treeSample, .error "unused"⟩

theorem char_ge65_iff (c : Char) : (c.val ≥ 65) ↔ (65 ≤ Char.toNat c) := by
  rw [ge_iff_le, UInt32.le_def, BitVec.le_def]; exact Iff.rfl

theorem char_le90_iff (c : Char) : (c.val ≤ 90) ↔ (Char.toNat c ≤ 90) := by
  rw [UInt32.le_def, BitVec.le_def]; exact Iff.rfl

theorem isUpper_eq (c : Char) :
    c.isUpper = (decide (65 ≤ Char.toNat c) && decide (Char.toNat c ≤ 90)) := by
  rw [Char.isUpper, Bool.eq_iff_iff]
  simp only [Bool.and_eq_true, decide_eq_true_eq]
  constructor
  · rintro ⟨a, b⟩
    exact ⟨(char_ge65_iff c).mp a, (char_le90_iff c).mp b⟩
  · rintro ⟨a, b⟩
    exact ⟨(char_ge65_iff c).mpr a, (char_le90_iff c).mpr b⟩

theorem toLower_not_upper (c : Char) : (Char.toLower c).isUpper = false := by
  simp only [Char.toLower]
  by_cases h : Char.toNat c ≥ 65 ∧ Char.toNat c ≤ 90
  · rw [if_pos h]
    obtain ⟨h1, h2⟩ := h
    generalize hn : Char.toNat c = n at h1 h2
    interval_cases n <;> decide
  · rw [if_neg h, isUpper_eq]
    simp only [Bool.and_eq_false_iff, decide_eq_false_iff_not]
    omega

theorem toLower_eq_hyphen (c : Char) : Char.toLower c = '-' → c = '-' := by
  simp only [Char.toLower]
  by_cases h : Char.toNat c ≥ 65 ∧ Char.toNat c ≤ 90
  · rw [if_pos h]
    obtain ⟨h1, h2⟩ := h
    generalize hn : Char.toNat c = n at h1 h2
    interval_cases n <;> exact fun hc => absurd hc (by decide)
  · rw [if_neg h]
    exact fun hc => hc

theorem splitChar_ne_nil (sep : Char) (s : Str) : splitChar sep s ≠ [] := by
  induction s with
  | nil => simp [splitChar]
  | cons c rest ih =>
    simp only [splitChar]
    split
    · simp
    · rcases h : splitChar sep rest with _ | ⟨a, t⟩
    
      · simp
      · simp

theorem splitChar_head_no_sep (sep : Char) :
    ∀ (s h : Str) (t : List Str), splitChar sep s = h :: t → sep ∉ h := by
  intro s
  induction s with
  | nil =>
    intro h t hs
    rw [splitChar] at hs
    cases hs
    simp
  | cons c rest ih =>
    intro h t hs
    simp only [splitChar] at hs
    by_cases hc : c = sep
    · rw [if_pos hc] at hs
      cases hs
      simp
    · rw [if_neg hc] at hs
      rcases hr : splitChar sep rest with _ | ⟨a, t2⟩
      · exact absurd hr (splitChar_ne_nil sep rest)
      · rw [hr] at hs
        injection hs with hh ht
        subst hh
        intro hmem
        rcases List.mem_cons.mp hmem with heq | hmem2
        · exact hc heq.symm
        · exact ih a t2 hr hmem2

theorem splitChar_append (sep : Char) (x y : Str) (hx : sep ∉ x) :
    splitChar sep (x ++ sep :: y) = x :: splitChar sep y := by
  induction x with
  | nil => simp [splitChar]
  | cons c x2 ih =>
    have hc : c ≠ sep := fun h => hx (by simp [h])
    have hx2 : sep ∉ x2 := fun h => hx (by simp [h])
    simp only [List.cons_append, splitChar, if_neg hc, List.append_eq, ih hx2]

theorem wsNum_no_colon (s : Str) : ':' ∉ wsNum s := by
  rcases h : splitChar ':' s with _ | ⟨a, t⟩
  · exact absurd h (splitChar_ne_nil ':' s)
  · rw [wsNum, h]
    exact splitChar_head_no_sep ':' s a t h

theorem wsNum_left_of_colon (x y : Str) (hx : ':' ∉ x) :
    wsNum (x ++ ':' :: y) = x := by
  rw [wsNum, splitChar_append ':' x y hx]
  rfl

theorem renameNewName_wsNum (m a : Str) : wsNum (renameNewName m a) = wsNum m := by
  rw [renameNewName]
  have hs : ": ".toList = ':' :: [' '] := rfl
  rw [hs, List.append_assoc]
  exact wsNum_left_of_colon _ _ (wsNum_no_colon m)

theorem renameNewName_idem (m a : Str) :
    renameNewName (renameNewName m a) a = renameNewName m a := by
  conv_lhs => rw [renameNewName]
  rw [renameNewName_wsNum]
  rfl

theorem head_dropWhile_false (p : Char → Bool) (l : Str) (c : Char)
    (h : (l.dropWhile p).head? = some c) : p c = false := by
  have hd := List.head?_dropWhile_not p l
  rw [h] at hd
  exact hd

theorem getLast_dropWhile (p : Char → Bool) :
    ∀ l : Str, l.dropWhile p ≠ [] → (l.dropWhile p).getLast? = l.getLast? := by
  intro l
  induction l with
  | nil => intro h; exact absurd rfl h
  | cons a l2 ih =>
    intro h
    rw [List.dropWhile_cons] at h ⊢
    by_cases hp : p a
    · rw [if_pos hp] at h ⊢
      rw [ih h]
      rcases l2 with _ | ⟨b, l3⟩
      · rw [List.dropWhile] at h
        exact absurd rfl h
      · rw [List.getLast?_cons_cons]
    · rw [if_neg hp]

theorem normalizeApp_head (s : Str) (c : Char)
    (h : (normalizeApp s).head? = some c) : c ≠ '-' := by
  rw [normalizeApp, to_lowercase, List.head?_map] at h
  rcases hm : (trim_end_matches '-' (trim_start_matches '-' s)).head? with _ | c0
  · rw [hm] at h
    exact absurd h (by simp)
  · rw [hm] at h
    have hc : c = Char.toLower c0 := by simpa using h.symm
    rw [trim_end_matches, List.head?_reverse] at hm
    have hne : (trim_start_matches '-' s).reverse.dropWhile (fun a => a == '-') ≠ [] := by
      intro h0
      rw [h0] at hm
      simp at hm
    rw [getLast_dropWhile _ _ hne, List.getLast?_reverse] at hm
    rw [trim_start_matches] at hm
    have hp := head_dropWhile_false _ _ _ hm
    intro hcc
    rw [hc] at hcc
    rw [toLower_eq_hyphen c0 hcc] at hp
    simp at hp

theorem normalizeApp_getLast (s : Str) (c : Char)
    (h : (normalizeApp s).getLast? = some c) : c ≠ '-' := by
  rw [normalizeApp, to_lowercase, List.getLast?_map] at h
  rcases hm : (trim_end_matches '-' (trim_start_matches '-' s)).getLast? with _ | c0
  · rw [hm] at h
    exact absurd h (by simp)
  · rw [hm] at h
    have hc : c = Char.toLower c0 := by simpa using h.symm
    rw [trim_end_matches, List.getLast?_reverse] at hm
    have hp := head_dropWhile_false _ _ _ hm
    intro hcc
    rw [hc] at hcc
    rw [toLower_eq_hyphen c0 hcc] at hp
    simp at hp

theorem normalizeApp_not_upper (s : Str) (c : Char)
    (h : c ∈ normalizeApp s) : c.isUpper = false := by
  rw [normalizeApp, to_lowercase] at h
  rcases List.mem_map.mp h with ⟨c0, _, rfl⟩
  exact toLower_not_upper c0

theorem rename_cmds_of_empty (event : WindowEvent) (env : Env) (w : Workspace)
    (hw : get_focused_workspace env = .ok w) (hf : w.focus = []) :
    rename_workspace event env =
      ⟨["rename workspace to ".toList ++ wsNum w.name],
       env.runCommand ("rename workspace to ".toList ++ wsNum w.name)⟩ := by
  have hE : w.focus.isEmpty = true := List.isEmpty_eq_true.mpr hf
  simp only [rename_workspace, hw, hE, if_true]

theorem rename_cmds_of_nonempty (event : WindowEvent) (env : Env) (w : Workspace) (a : Str)
    (hw : get_focused_workspace env = .ok w) (hf : w.focus ≠ [])
    (ha : appIdentity event = some a) :
    rename_workspace event env =
      ⟨["rename workspace to ".toList ++ renameNewName w.name a],
       env.runCommand ("rename workspace to ".toList ++ renameNewName w.name a)⟩ := by
  have hE : w.focus.isEmpty = false := List.isEmpty_eq_false.mpr hf
  simp only [rename_workspace, hw, hE, ha, Bool.false_eq_true, if_false]

theorem rename_cmds_of_none (event : WindowEvent) (env : Env) (w : Workspace)
    (hw : get_focused_workspace env = .ok w) (hf : w.focus ≠ [])
    (ha : appIdentity event = none) :
    rename_workspace event env = ⟨[], .ok ()⟩ := by
  have hE : w.focus.isEmpty = false := List.isEmpty_eq_false.mpr hf
  simp only [rename_workspace, hw, hE, ha, Bool.false_eq_true, if_false]

/-- C3: the naming transform is idempotent: for the same event (same
application identity) and the same non-empty focus-list status,
applying the rename computation to the name it itself produced yields
the same name again. -/
theorem rename_idempotent (event : WindowEvent) (env1 env2 : Env) (w1 w2 : Workspace)
    (a : Str)
    (h1 : get_focused_workspace env1 = .ok w1) (hf1 : w1.focus ≠ [])
    (h2 : get_focused_workspace env2 = .ok w2) (hf2 : w2.focus ≠ [])
    (ha : appIdentity event = some a)
    (hn : w2.name = renameNewName w1.name a) :
    (rename_workspace event env1).cmds =
      ["rename workspace to ".toList ++ renameNewName w1.name a] ∧
    (rename_workspace event env2).cmds =
      ["rename workspace to ".toList ++ renameNewName w1.name a] := by
  constructor
  · rw [rename_cmds_of_nonempty event env1 w1 a h1 hf1 ha]
  · rw [rename_cmds_of_nonempty event env2 w2 a h2 hf2 ha, hn, renameNewName_idem]

theorem rename_idempotent_witness :
    (rename_workspace evFirefox (envWs wsThree)).cmds =
      ["rename workspace to ".toList ++ renameNewName wsThree.name "Firefox".toList] ∧
    (rename_workspace evFirefox (envWs wsThreeFirefox)).cmds =
      ["rename workspace to ".toList ++ renameNewName wsThree.name "Firefox".toList] :=
  rename_idempotent evFirefox (envWs wsThree) (envWs wsThreeFirefox)
    wsThree wsThreeFirefox "Firefox".toList rfl (by decide) rfl (by decide) rfl (by decide)

/-- C4: with a non-empty focus list the engine prefers the event app
identifier, falls back to the legacy window class, sends nothing when
both are absent; the new name is `"{ws_num}: {normalized identity}"`
(`renameNewName`), whose suffix has no leading or trailing hyphen and
contains no upper-case character. -/
theorem rename_identity_and_normalization (event : WindowEvent) (env : Env) (w : Workspace)
    (hw : get_focused_workspace env = .ok w) (hf : w.focus ≠ []) :
    (∀ a, event.container.app_id = some a →
      (rename_workspace event env).cmds =
        ["rename workspace to ".toList ++ renameNewName w.name a]) ∧
    (∀ c, event.container.app_id = none →
      event.container.window_properties.bind (fun p => p.wclass) = some c →
      (rename_workspace event env).cmds =
        ["rename workspace to ".toList ++ renameNewName w.name c]) ∧
    (event.container.app_id = none →
      event.container.window_properties.bind (fun p => p.wclass) = none →
      (rename_workspace event env).cmds = []) ∧
    (∀ a c, (normalizeApp a).head? = some c → c ≠ '-') ∧
    (∀ a c, (normalizeApp a).getLast? = some c → c ≠ '-') ∧
    (∀ a c, c ∈ normalizeApp a → c.isUpper = false) := by
  refine ⟨?_, ?_, ?_, ?_, ?_, ?_⟩
  · intro a haid
    have ha : appIdentity event = some a := by rw [appIdentity, haid]
    rw [rename_cmds_of_nonempty event env w a hw hf ha]
  · intro c haid hcl
    have ha : appIdentity event = some c := by rw [appIdentity, haid, hcl]
    rw [rename_cmds_of_nonempty event env w c hw hf ha]
  · intro haid hcl
    have ha : appIdentity event = none := by rw [appIdentity, haid, hcl]
    rw [rename_cmds_of_none event env w hw hf ha]
  · exact fun a c h => normalizeApp_head a c h
  · exact fun a c h => normalizeApp_getLast a c h
  · exact fun a c h => normalizeApp_not_upper a c h

theorem rename_identity_and_normalization_witness :
    (∀ a, evFirefox.container.app_id = some a →
      (rename_workspace evFirefox (envWs wsThree)).cmds =
        ["rename workspace to ".toList ++ renameNewName wsThree.name a]) ∧
    (∀ c, evFirefox.container.app_id = none →
      evFirefox.container.window_properties.bind (fun p => p.wclass) = some c →
      (rename_workspace evFirefox (envWs wsThree)).cmds =
        ["rename workspace to ".toList ++ renameNewName wsThree.name c]) ∧
    (evFirefox.container.app_id = none →
      evFirefox.container.window_properties.bind (fun p => p.wclass) = none →
      (rename_workspace evFirefox (envWs wsThree)).cmds = []) ∧
    (∀ a c, (normalizeApp a).head? = some c → c ≠ '-') ∧
    (∀ a c, (normalizeApp a).getLast? = some c → c ≠ '-') ∧
    (∀ a c, c ∈ normalizeApp a → c.isUpper = false) :=
  rename_identity_and_normalization evFirefox (envWs wsThree) wsThree rfl (by decide)

/-- C5: with an empty focus list the engine sends exactly
`rename workspace to {ws_num}`; a workspace named `3: firefox` with an
empty focus list is renamed via `rename workspace to 3`. -/
theorem rename_empty_focus_strips_suffix (event : WindowEvent) (env : Env) (w : Workspace)
    (hw : get_focused_workspace env = .ok w) (hf : w.focus = []) :
    (rename_workspace event env).cmds =
      ["rename workspace to ".toList ++ wsNum w.name] ∧
    (w.name = "3: firefox".toList →
      (rename_workspace event env).cmds = ["rename workspace to 3".toList]) := by
  have hr := rename_cmds_of_empty event env w hw hf
  constructor
  · rw [hr]
  · intro hn
    rw [hr, hn]
    show ["rename workspace to ".toList ++ wsNum "3: firefox".toList] =
      ["rename workspace to 3".toList]
    decide

theorem rename_empty_focus_strips_suffix_witness :
    (rename_workspace evClose (envWs wsThreeFirefoxEmpty)).cmds =
      ["rename workspace to ".toList ++ wsNum wsThreeFirefoxEmpty.name] ∧
    (wsThreeFirefoxEmpty.name = "3: firefox".toList →
      (rename_workspace evClose (envWs wsThreeFirefoxEmpty)).cmds =
        ["rename workspace to 3".toList]) :=
  rename_empty_focus_strips_suffix evClose (envWs wsThreeFirefoxEmpty)
    wsThreeFirefoxEmpty rfl rfl

theorem andThen_res_ok {α : Type} {a : Out Unit} {b : Out α} {p : α}
    (h : (Out.andThen a b).res = .ok p) : b.res = .ok p := by
  rcases ha : a.res with e | u
  · simp only [Out.andThen, ha] at h
    exact absurd h (by simp)
  · simp only [Out.andThen, ha] at h
    exact h

theorem handle_tracker (cfg : Config) (env : Env) (prev : Option Int)
    (event : WindowEvent) (p : Option Int)
    (h : (handleWindowEvent cfg env prev event).res = .ok p) :
    p = trackerStep prev event := by
  cases hc : event.change
  case focus =>
    simp only [handleWindowEvent, hc] at h
    have h1 := andThen_res_ok (andThen_res_ok (andThen_res_ok (andThen_res_ok h)))
    simp only [trackerStep, hc]
    simp at h1
    exact h1.symm
  case close =>
    simp only [handleWindowEvent, hc] at h
    have h1 := andThen_res_ok (andThen_res_ok h)
    simp only [trackerStep, hc]
    simp at h1
    exact h1.symm
  all_goals
    simp only [handleWindowEvent, hc] at h
    simp only [trackerStep, hc]
    simp at h
    exact h.symm

theorem runLoop_first_error (cfg : Config) (e : String) (env : Env)
    (rest : List (Except String WindowEvent × Env)) (prev : Option Int) :
    runLoop cfg prev ((Except.error e, env) :: rest) = ⟨[], .error e⟩ := rfl

theorem runLoop_append_res_ok (cfg : Config) :
    ∀ (xs ys : List (Except String WindowEvent × Env)) (prev p : Option Int),
    (runLoop cfg prev xs).res = .ok p →
    runLoop cfg prev (xs ++ ys) =
      ⟨(runLoop cfg prev xs).cmds ++ (runLoop cfg p ys).cmds,
       (runLoop cfg p ys).res⟩ := by
  intro xs
  induction xs with
  | nil =>
    intro ys prev p h
    simp only [runLoop] at h
    cases h
    simp [runLoop]
  | cons x xs2 ih =>
    intro ys prev p h
    rcases x with ⟨item, env⟩
    rcases item with e | event
    · simp only [runLoop] at h
      cases h
    · simp only [List.cons_append, runLoop] at h ⊢
      rcases hh : handleWindowEvent cfg env prev event with ⟨cmds, res⟩
      rcases res with e2 | q
      · rw [hh] at h
        exact absurd h (by simp)
      · rw [hh] at h
        have h2 : (runLoop cfg q xs2).res = Except.ok p := h
        have h3 := ih ys q p h2
        show (⟨cmds ++ (runLoop cfg q (xs2 ++ ys)).cmds,
            (runLoop cfg q (xs2 ++ ys)).res⟩ : Out (Option Int)) =
          ⟨(cmds ++ (runLoop cfg q xs2).cmds) ++ (runLoop cfg p ys).cmds,
           (runLoop cfg p ys).res⟩
        rw [h3]
        simp [List.append_assoc]

theorem trackerFold_append (evs : List (WindowEvent × Env)) (x : WindowEvent × Env)
    (prev : Option Int) :
    trackerFold (evs ++ [x]) prev = trackerStep (trackerFold evs prev) x.1 := by
  simp [trackerFold, List.foldl_append]

theorem runLoop_tracker (cfg : Config) :
    ∀ (evs : List (WindowEvent × Env)) (prev p : Option Int),
    (runLoop cfg prev (okStream evs)).res = .ok p →
    p = trackerFold evs prev := by
  intro evs
  induction evs with
  | nil =>
    intro prev p h
    simp only [okStream, List.map_nil, runLoop] at h
    cases h
    rfl
  | cons x xs ih =>
    intro prev p h
    rcases x with ⟨event, env⟩
    simp only [okStream, List.map_cons, runLoop] at h
    rcases hh : handleWindowEvent cfg env prev event with ⟨cmds, res⟩
    rcases res with e2 | q
    · rw [hh] at h
      exact absurd h (by simp)
    · rw [hh] at h
      have h2 : (runLoop cfg q (okStream xs)).res = Except.ok p := h
      have hq : q = trackerStep prev event := by
        apply handle_tracker cfg env prev event q
        rw [hh]
      have hp := ih q p h2
      rw [hp, hq]
      simp [trackerFold]

theorem concat_decomp {α : Type} {l pre post : List α} {y x : α}
    (h : pre ++ y :: post = l ++ [x]) :
    (pre = l ∧ y = x ∧ post = []) ∨
    (∃ post2, post = post2 ++ [x] ∧ l = pre ++ y :: post2) := by
  rcases List.eq_nil_or_concat post with rfl | ⟨post2, z, hpc⟩
  · left
    obtain ⟨h3, h4⟩ := List.append_inj' h rfl
    injection h4 with h5 h6
    exact ⟨h3, h5, rfl⟩
  · right
    rw [List.concat_eq_append] at hpc
    subst hpc
    have h2 : (pre ++ y :: post2) ++ [z] = l ++ [x] := by
      rw [List.append_assoc, List.cons_append]
      exact h
    obtain ⟨h4, h5⟩ := List.append_inj' h2 rfl
    injection h5 with h6 h7
    subst h6
    exact ⟨post2, rfl, h4.symm⟩

theorem trackerFold_some_iff :
    ∀ (evs : List (WindowEvent × Env)) (id : Int),
    trackerFold evs none = some id ↔
      (∃ pre ev env post, evs = pre ++ (ev, env) :: post ∧
        ev.change = WindowChange.focus ∧ ev.container.id = id ∧
        ∀ y ∈ post, y.1.change ≠ WindowChange.focus ∧
          y.1.change ≠ WindowChange.close) := by
  intro evs
  induction evs using List.reverseRecOn with
  | nil =>
    intro id
    constructor
    · intro h
      exact absurd h (by simp [trackerFold])
    · rintro ⟨pre, ev, env, post, hdec, -⟩
      exact absurd hdec (by simp)
  | append_singleton l x ih =>
    intro id
    rcases x with ⟨ev0, env0⟩
    rw [trackerFold_append]
    cases hc : ev0.change
    case focus =>
      rw [show trackerStep (trackerFold l none) ((ev0, env0) : WindowEvent × Env).1 =
          some ev0.container.id from by simp [trackerStep, hc]]
      constructor
      · intro h
        injection h with h2
        exact ⟨l, ev0, env0, [], rfl, hc, h2, by simp⟩
      · rintro ⟨pre, ev, env, post, hdec, hfoc, hid, hpost⟩
        rcases concat_decomp hdec.symm with ⟨hpre, hxy, hpost0⟩ | ⟨post2, hpost2, hl⟩
        · injection hxy with he henv
          rw [← he, hid]
        · have hmem : ((ev0, env0) : WindowEvent × Env) ∈ post := by
            rw [hpost2]
            simp
          exact absurd hc (hpost _ hmem).1
    case close =>
      rw [show trackerStep (trackerFold l none) ((ev0, env0) : WindowEvent × Env).1 =
          none from by simp [trackerStep, hc]]
      constructor
      · intro h
        exact absurd h (by simp)
      · rintro ⟨pre, ev, env, post, hdec, hfoc, hid, hpost⟩
        exfalso
        rcases concat_decomp hdec.symm with ⟨hpre, hxy, hpost0⟩ | ⟨post2, hpost2, hl⟩
        · injection hxy with he henv
          rw [← he] at hc
          rw [hc] at hfoc
          exact absurd hfoc (by simp)
        · have hmem : ((ev0, env0) : WindowEvent × Env) ∈ post := by
            rw [hpost2]
            simp
          exact (hpost _ hmem).2 hc
    all_goals
      rw [show trackerStep (trackerFold l none) ((ev0, env0) : WindowEvent × Env).1 =
          trackerFold l none from by simp [trackerStep, hc]]
      rw [ih id]
      constructor
      · rintro ⟨pre, ev, env, post, hdec, hfoc, hid, hpost⟩
        refine ⟨pre, ev, env, post ++ [(ev0, env0)], ?_, hfoc, hid, ?_⟩
        · rw [hdec]
          simp [List.append_assoc]
        · intro y hy
          rcases List.mem_append.mp hy with hy1 | hy2
          · exact hpost y hy1
          · have hy3 : y = ((ev0, env0) : WindowEvent × Env) := by simpa using hy2
            subst hy3
            exact ⟨by simp [hc], by simp [hc]⟩
      · rintro ⟨pre, ev, env, post, hdec, hfoc, hid, hpost⟩
        rcases concat_decomp hdec.symm with ⟨hpre, hxy, hpost0⟩ | ⟨post2, hpost2, hl⟩
        · injection hxy with he henv
          rw [← he] at hc
          rw [hc] at hfoc
          exact absurd hfoc (by simp)
        · refine ⟨pre, ev, env, post2, hl, hfoc, hid, ?_⟩
          intro y hy
          refine hpost y ?_
          rw [hpost2]
          exact List.mem_append_left _ hy

theorem andThen_cmds (a : Out Unit) (b : Out Unit) :
    ∃ r, (Out.andThen a b).cmds = a.cmds ++ r := by
  rcases ha : a.res with e | u
  · exact ⟨[], by simp [Out.andThen, ha]⟩
  · exact ⟨b.cmds, by simp [Out.andThen, ha]⟩

theorem andThen_cmds_opt (a : Out Unit) (b : Out (Option Int)) :
    ∃ r, (Out.andThen a b).cmds = a.cmds ++ r := by
  rcases ha : a.res with e | u
  · exact ⟨[], by simp [Out.andThen, ha]⟩
  · exact ⟨b.cmds, by simp [Out.andThen, ha]⟩

theorem andThen_res_of_ok {α : Type} {a : Out Unit} {b : Out α}
    (h : a.res = .ok ()) : (Out.andThen a b).res = b.res := by
  simp [Out.andThen, h]

theorem andThen_res_of_error {α : Type} {a : Out Unit} {b : Out α} {e : String}
    (h : a.res = .error e) : (Out.andThen a b).res = .error e := by
  simp [Out.andThen, h]

/-- C7: whenever the leave hook is configured and the tracker holds a
previous id `n`, the first command issued for a Focus or Close event is
exactly `[con_id=n] template` — scoped to the previously focused
container, never the new one, and ahead of every other command of this
event. -/
theorem leave_hook_first (cfg : Config) (env : Env) (n : Int) (t : Str)
    (event : WindowEvent)
    (ht : cfg.on_window_focus_leave = some t)
    (hc : event.change = WindowChange.focus ∨ event.change = WindowChange.close) :
    ∃ rest, (handleWindowEvent cfg env (some n) event).cmds =
      leaveHookCmd n t :: rest := by
  have hcm : (leaveHook cfg env (some n)).cmds = [leaveHookCmd n t] := by
    simp [leaveHook, ht]
  rcases hc with hc | hc
  · simp only [handleWindowEvent, hc]
    obtain ⟨r, hr⟩ := andThen_cmds_opt (leaveHook cfg env (some n)) _
    rw [hcm] at hr
    exact ⟨r, hr⟩
  · simp only [handleWindowEvent, hc]
    obtain ⟨r, hr⟩ := andThen_cmds_opt (leaveHook cfg env (some n)) _
    rw [hcm] at hr
    exact ⟨r, hr⟩

theorem leave_hook_first_witness :
    ∃ rest, (handleWindowEvent cfgLeave (envWs wsThree) (some 7) evFirefox).cmds =
      leaveHookCmd 7 "mark --add _prev".toList :: rest :=
  leave_hook_first cfgLeave (envWs wsThree) 7 "mark --add _prev".toList evFirefox
    rfl (Or.inl rfl)

/-- C8: whatever the workspace naming engine and the autolayout engine
return — including any of their errors — a loop iteration whose hook
commands succeed completes with `.ok` and the loop proceeds to the next
event: engine failures are caught, not propagated. -/
theorem engine_errors_caught (cfg : Config) (env : Env) (prev : Option Int)
    (event : WindowEvent)
    (hL : ∀ t n, cfg.on_window_focus_leave = some t → prev = some n →
      env.runCommand (leaveHookCmd n t) = .ok ())
    (hE : ∀ t, cfg.on_window_focus = some t → env.runCommand t = .ok ()) :
    (handleWindowEvent cfg env prev event).res = .ok (trackerStep prev event) ∧
    ∀ rest, (runLoop cfg prev ((Except.ok event, env) :: rest)).res =
      (runLoop cfg (trackerStep prev event) rest).res := by
  have hlv : (leaveHook cfg env prev).res = .ok () := by
    rcases hlt : cfg.on_window_focus_leave with _ | t
    · simp [leaveHook, hlt]
    · rcases hp : prev with _ | n
      · simp [leaveHook, hlt, hp]
      · simp [leaveHook, hlt, hp, hL t n hlt hp]
  have hen : (enterHook cfg env).res = .ok () := by
    rcases het : cfg.on_window_focus with _ | t
    · simp [enterHook, het]
    · simp [enterHook, het, hE t het]
  have hri : ∀ (b : Bool) (a : Out Unit), (runIf b (catchLog a)).res = .ok () := by
    intro b a
    cases b <;> simp [runIf, catchLog]
  have hres : (handleWindowEvent cfg env prev event).res = .ok (trackerStep prev event) := by
    cases hc : event.change
    case focus =>
      simp only [handleWindowEvent, hc, trackerStep]
      rw [andThen_res_of_ok hlv, andThen_res_of_ok hen,
        andThen_res_of_ok (hri _ _), andThen_res_of_ok (hri _ _)]
    case close =>
      simp only [handleWindowEvent, hc, trackerStep]
      rw [andThen_res_of_ok hlv, andThen_res_of_ok (hri _ _)]
    all_goals simp only [handleWindowEvent, hc, trackerStep]
  refine ⟨hres, ?_⟩
  intro rest
  simp only [runLoop]
  rcases hh : handleWindowEvent cfg env prev event with ⟨cmds, res⟩
  rw [hh] at hres
  simp only at hres
  subst hres
  rfl

theorem engine_errors_caught_witness :
    (handleWindowEvent cfgEngines envBroken none evFirefox).res =
      .ok (trackerStep none evFirefox) ∧
    ∀ rest, (runLoop cfgEngines none ((Except.ok evFirefox, envBroken) :: rest)).res =
      (runLoop cfgEngines (trackerStep none evFirefox) rest).res :=
  engine_errors_caught cfgEngines envBroken none evFirefox
    (fun _ _ h _ => Option.noConfusion h) (fun _ h => Option.noConfusion h)

/-- C6: after a successful run, the tracker is `none` when the last
event was a Close, the new container id when the last event was a
Focus, and in general holds `some id` exactly when a Focus event for
`id` is the most recent Focus event with no later Focus or Close
event. -/
theorem focus_tracker_invariant (cfg : Config) (evs : List (WindowEvent × Env))
    (p : Option Int)
    (h : (runLoop cfg none (okStream evs)).res = .ok p) :
    (∀ pre ev env, evs = pre ++ [(ev, env)] →
      (ev.change = WindowChange.close → p = none) ∧
      (ev.change = WindowChange.focus → p = some ev.container.id)) ∧
    (∀ id : Int, p = some id ↔
      ∃ pre ev env post, evs = pre ++ (ev, env) :: post ∧
        ev.change = WindowChange.focus ∧ ev.container.id = id ∧
        ∀ y ∈ post, y.1.change ≠ WindowChange.focus ∧
          y.1.change ≠ WindowChange.close) := by
  have hp := runLoop_tracker cfg evs none p h
  subst hp
  constructor
  · intro pre ev env hdec
    subst hdec
    rw [trackerFold_append]
    constructor
    · intro hc
      simp [trackerStep, hc]
    · intro hc
      simp [trackerStep, hc]
  · intro id
    exact trackerFold_some_iff evs id

theorem focus_tracker_invariant_witness :
    (∀ pre ev env, [(evFirefox, envWs wsThree)] = pre ++ [(ev, env)] →
      (ev.change = WindowChange.close → (some 7 : Option Int) = none) ∧
      (ev.change = WindowChange.focus →
        (some 7 : Option Int) = some ev.container.id)) ∧
    (∀ id : Int, (some 7 : Option Int) = some id ↔
      ∃ pre ev env post, [(evFirefox, envWs wsThree)] = pre ++ (ev, env) :: post ∧
        ev.change = WindowChange.focus ∧ ev.container.id = id ∧
        ∀ y ∈ post, y.1.change ≠ WindowChange.focus ∧
          y.1.change ≠ WindowChange.close) :=
  focus_tracker_invariant cfgPlain [(evFirefox, envWs wsThree)] (some 7) rfl

/-- C10: a failing hook dispatch — leave hook, or enter hook with no
leave hook configured — aborts the iteration with the connection error,
which propagates out of the loop and makes the process exit non-zero,
unlike the caught engine errors. -/
theorem hook_error_fatal (cfg : Config) (env : Env) (n : Int) (t : Str) (e : String)
    (event : WindowEvent) (good rest : List (Except String WindowEvent × Env))
    (hprev : (runLoop cfg none good).res = .ok (some n))
    (hcase :
      (cfg.on_window_focus_leave = some t ∧
        (event.change = WindowChange.focus ∨ event.change = WindowChange.close) ∧
        env.runCommand (leaveHookCmd n t) = .error e) ∨
      (cfg.on_window_focus_leave = none ∧ cfg.on_window_focus = some t ∧
        event.change = WindowChange.focus ∧ env.runCommand t = .error e)) :
    (handleWindowEvent cfg env (some n) event).res = .error e ∧
    (runLoop cfg none (good ++ (Except.ok event, env) :: rest)).res = .error e ∧
    exitCode cfg (good ++ (Except.ok event, env) :: rest) = 1 := by
  have hfirst : (handleWindowEvent cfg env (some n) event).res = .error e := by
    rcases hcase with ⟨hlt, hc, hrc⟩ | ⟨hlt, het, hc, hrc⟩
    · have hlv : (leaveHook cfg env (some n)).res = .error e := by
        simp [leaveHook, hlt, hrc]
      rcases hc with hc | hc
      · simp only [handleWindowEvent, hc]
        exact andThen_res_of_error hlv
      · simp only [handleWindowEvent, hc]
        exact andThen_res_of_error hlv
    · have hlv : (leaveHook cfg env (some n)).res = .ok () := by
        simp [leaveHook, hlt]
      have hev : (enterHook cfg env).res = .error e := by
        simp [enterHook, het, hrc]
      simp only [handleWindowEvent, hc]
      rw [andThen_res_of_ok hlv]
      exact andThen_res_of_error hev
  have hcons : (runLoop cfg (some n) ((Except.ok event, env) :: rest)).res = .error e := by
    simp only [runLoop]
    rcases hh : handleWindowEvent cfg env (some n) event with ⟨cmds, res⟩
    rw [hh] at hfirst
    simp only at hfirst
    subst hfirst
    rfl
  have happ := runLoop_append_res_ok cfg good ((Except.ok event, env) :: rest)
    none (some n) hprev
  have hres : (runLoop cfg none (good ++ (Except.ok event, env) :: rest)).res =
      .error e := by
    rw [happ]
    exact hcons
  exact ⟨hfirst, hres, by simp [exitCode, mainResult, hres]⟩

theorem hook_error_fatal_witness :
    (handleWindowEvent cfgLeave envSendFail (some 7) evFirefox).res =
      .error "write: broken pipe" ∧
    (runLoop cfgLeave none
      ([(Except.ok evFirefox, envWs wsThree)] ++
        (Except.ok evFirefox, envSendFail) :: [])).res = .error "write: broken pipe" ∧
    exitCode cfgLeave
      ([(Except.ok evFirefox, envWs wsThree)] ++
        (Except.ok evFirefox, envSendFail) :: []) = 1 :=
  hook_error_fatal cfgLeave envSendFail 7 "mark --add _prev".toList
    "write: broken pipe" evFirefox [(Except.ok evFirefox, envWs wsThree)] []
    rfl (Or.inl ⟨rfl, Or.inl rfl, rfl⟩)

/-- C2 counterexample: when the subscription stream is exhausted
without error the loop falls through to `Ok(())` and the process exits
with status 0, not the non-zero status the claim asserts. -/
theorem stream_exhaustion_exit_cex :
    mainResult cfgPlain [] = .ok () ∧ exitCode cfgPlain [] = 0 :=
  ⟨rfl, rfl⟩

/-- C2 (amended): a connection-level stream error terminates the loop
and the process exits non-zero with that error; clean stream
exhaustion terminates the loop with a zero (success) exit. -/
theorem stream_error_exit (cfg : Config)
    (good rest : List (Except String WindowEvent × Env)) (e : String) (env : Env)
    (p : Option Int) (h : (runLoop cfg none good).res = .ok p) :
    mainResult cfg (good ++ (Except.error e, env) :: rest) = .error e ∧
    exitCode cfg (good ++ (Except.error e, env) :: rest) = 1 ∧
    mainResult cfg good = .ok () ∧
    exitCode cfg good = 0 := by
  have happ := runLoop_append_res_ok cfg good ((Except.error e, env) :: rest) none p h
  have hres : (runLoop cfg none (good ++ (Except.error e, env) :: rest)).res =
      .error e := by
    rw [happ, runLoop_first_error]
  refine ⟨?_, ?_, ?_, ?_⟩
  · simp [mainResult, hres]
  · simp [exitCode, mainResult, hres]
  · simp [mainResult, h]
  · simp [exitCode, mainResult, h]

theorem stream_error_exit_witness :
    mainResult cfgPlain ([] ++ (Except.error "connection reset", envWs wsThree) :: []) =
      .error "connection reset" ∧
    exitCode cfgPlain ([] ++ (Except.error "connection reset", envWs wsThree) :: []) = 1 ∧
    mainResult cfgPlain [] = .ok () ∧
    exitCode cfgPlain [] = 0 :=
  stream_error_exit cfgPlain [] [] "connection reset" (envWs wsThree) none rfl

/-- C1: for a fetched tree in which the focused node and its parent are
located, autolayout sends no command when the focused node is floating,
its fullscreen percent exceeds 1, or the parent is stacked or tabbed;
otherwise it sends exactly one split command, vertical iff the focused
rectangle is strictly taller than wide. -/
theorem autolayout_split_decision (env : Env) (tree : Tree) (focused parent : Node)
    (ht : env.tree = .ok tree)
    (hf : tree.find_focused (fun n => n.focused) = some focused)
    (hp : tree.find_focused (fun n => n.nodes.any (fun m => m.focused)) = some parent) :
    ((focused.node_type = NodeType.floatingCon ∨ Option.getD focused.percent 1 > (1 : ℚ)
        ∨ parent.layout = NodeLayout.stacked ∨ parent.layout = NodeLayout.tabbed) →
      (autolayout env).cmds = []) ∧
    (¬(focused.node_type = NodeType.floatingCon ∨ Option.getD focused.percent 1 > (1 : ℚ)
        ∨ parent.layout = NodeLayout.stacked ∨ parent.layout = NodeLayout.tabbed) →
      (autolayout env).cmds =
        [if focused.rect.height > focused.rect.width then "split v".toList
         else "split h".toList]) := by
  simp only [autolayout, ht, hf, hp, beq_iff_eq]
  constructor
  · intro h
    rcases h with h | h | h | h
    · simp [h]
    · simp [not_le.mpr h]
    · simp [h]
    · simp [h]
  · intro h
    push_neg at h
    obtain ⟨h1, h2, h3, h4⟩ := h
    simp [beq_eq_false_iff_ne, h1, h2, h3, h4]

theorem autolayout_split_decision_witness :
    ((nodeFocusedSample.node_type = NodeType.floatingCon
        ∨ Option.getD nodeFocusedSample.percent 1 > (1 : ℚ)
        ∨ nodeRootSample.layout = NodeLayout.stacked
        ∨ nodeRootSample.layout = NodeLayout.tabbed) →
      (autolayout envTreeSample).cmds = []) ∧
    (¬(nodeFocusedSample.node_type = NodeType.floatingCon
        ∨ Option.getD nodeFocusedSample.percent 1 > (1 : ℚ)
        ∨ nodeRootSample.layout = NodeLayout.stacked
        ∨ nodeRootSample.layout = NodeLayout.tabbed) →
      (autolayout envTreeSample).cmds =
        [if nodeFocusedSample.rect.height > nodeFocusedSample.rect.width
          then "split v".toList else "split h".toList]) :=
  autolayout_split_decision envTreeSample treeSample nodeFocusedSample nodeRootSample
    rfl rfl rfl

/-- C9: on any of the four registered termination signals with a
shutdown hook configured, exactly one command — the hook — is sent and
the process exits with status 0. -/
theorem signal_shutdown_hook (on_exit : Option Str) (c : Str) (sig : Signal)
    (rest : List Signal)
    (hs : sig = Signal.sighup ∨ sig = Signal.sigint ∨ sig = Signal.sigquit ∨
      sig = Signal.sigterm)
    (hc : on_exit = some c) :
    handle_signals on_exit (sig :: rest) = ⟨[c], some 0⟩ := by
  subst hc
  rcases hs with rfl | rfl | rfl | rfl
  · rfl
  · rfl
  · rfl
  · rfl

theorem signal_shutdown_hook_witness :
    handle_signals (some "[tiling] opacity 1".toList) [Signal.sigterm] =
      ⟨["[tiling] opacity 1".toList], some 0⟩ :=
  signal_shutdown_hook (some "[tiling] opacity 1".toList) "[tiling] opacity 1".toList
    Signal.sigterm [] (Or.inr (Or.inr (Or.inr rfl))) rfl

end Persway
